import Mathlib

/-!
Verification of the ContentEngine job-queue and worker subsystem.

This file gives a shallow embedding of the scheduler operations of
`mcp_server.py` (ingest, schedule, fire, cancel, sync) and of the worker
loop of `job_worker.py` (due-job query, per-job processing, retry policy),
over the `Post` and `JobQueue` tables of `lib/database.py`, and proves the
specified properties about them.

Modelling conventions:
- timestamps are natural numbers (`datetime.utcnow()` becomes an explicit
  `now : Nat` parameter);
- the SQLite tables become lists of records inside a `Store`; the ORM's
  "mutate the object found by a query" becomes an update of every list
  entry with the matching primary key (keys are unique in SQLite);
- `hashlib.sha256(...).hexdigest()[:16]` becomes an arbitrary function
  parameter `hash : String → String`, since only equality of hashes is
  ever inspected;
- Python `raise ValueError` becomes `Except.error`; a raised error commits
  nothing, so the erroneous branches return no store;
- each `db.commit()` boundary of the worker is modelled as its own store
  transformation (`mark_processing`, `complete_job`, `handle_failure`),
  matching the two commits inside `_process_job`.
-/

namespace ContentEngine

/-- Post status enum (`PostStatus` in lib/database.py). -/
inductive PostStatus where
  | draft
  | approved
  | scheduled
  | posted
  | failed
  | rejected
deriving DecidableEq, Repr

/-- Platform enum (`Platform` in lib/database.py). -/
inductive Platform where
  | linkedin
  | twitter
  | blog
deriving DecidableEq, Repr

/-- Job status enum (`JobStatus` in lib/database.py). -/
inductive JobStatus where
  | pending
  | processing
  | completed
  | failed
  | cancelled
deriving DecidableEq, Repr

/-- Job type enum (`JobType` in lib/database.py). -/
inductive JobType where
  | post_to_linkedin
  | post_to_twitter
  | post_to_blog
deriving DecidableEq, Repr

/-- The `posts` table row (`Post` in lib/database.py), restricted to the
columns the job subsystem reads or writes. -/
structure Post where
  id : Nat
  content : String
  platform : Platform
  status : PostStatus
  scheduled_at : Option Nat
  posted_at : Option Nat
  external_id : Option String
  error_message : Option String
  updated_at : Nat
deriving DecidableEq, Repr

/-- The `job_queue` table row (`JobQueue` in lib/database.py). -/
structure JobRecord where
  id : Nat
  job_type : JobType
  status : JobStatus
  post_id : Nat
  scheduled_at : Option Nat
  priority : Int
  attempts : Nat
  max_attempts : Nat
  last_error : Option String
  next_retry_at : Option Nat
  started_at : Option Nat
  completed_at : Option Nat
  source_file : Option String
  source_hash : Option String
  created_at : Nat
  updated_at : Nat
deriving DecidableEq, Repr

/-- The persistent store: the two tables plus the autoincrement counters. -/
structure Store where
  posts : List Post
  jobs : List JobRecord
  nextPostId : Nat
  nextJobId : Nat
deriving DecidableEq, Repr

/-- Structured counterpart of the result dictionaries the MCP tools return;
only the fields the claims inspect are kept. -/
inductive OpResult where
  | created (post_id : Nat)
  | updated (post_id : Nat) (job_id : Nat)
  | scheduled (job_id : Nat) (post_id : Nat) (at_time : Nat)
  | rescheduled (job_id : Nat) (post_id : Nat) (at_time : Nat)
  | queued_immediate (job_id : Nat) (post_id : Nat)
  | cancelled (job_id : Nat) (post_id : Nat)
  | cancelled_many (job_ids : List Nat) (post_id : Nat)
  | cancel_none
  | sync_not_found
  | sync_unchanged (job_id : Nat) (post_id : Nat)
  | sync_updated (job_id : Nat) (post_id : Nat)
deriving DecidableEq, Repr

/-- Is a job status one of the "active" statuses {PENDING, PROCESSING}
used by the `status.in_([JobStatus.PENDING, JobStatus.PROCESSING])`
filters. -/
def isActiveStatus : JobStatus → Bool
  | .pending => true
  | .processing => true
  | _ => false

/-- Is a job status PENDING. -/
def isPendingStatus : JobStatus → Bool
  | .pending => true
  | _ => false

/-- A post status allowed by `schedule` (`[PostStatus.APPROVED, PostStatus.DRAFT]`). -/
def canSchedule : PostStatus → Bool
  | .approved => true
  | .draft => true
  | _ => false

/-- Predicate of the query `JobQueue.post_id == post_id AND status IN (PENDING, PROCESSING)`. -/
def activePred (pid : Nat) (j : JobRecord) : Bool :=
  (j.post_id == pid) && isActiveStatus j.status

/-- Predicate of the query `JobQueue.source_file == f AND status IN (PENDING, PROCESSING)`. -/
def sourcePred (f : String) (j : JobRecord) : Bool :=
  (j.source_file == some f) && isActiveStatus j.status

/-- db.get(Post, post_id). -/
def findPost (s : Store) (pid : Nat) : Option Post :=
  s.posts.find? (fun p => p.id == pid)

/-- db.get(JobQueue, job_id). -/
def findJob (s : Store) (jid : Nat) : Option JobRecord :=
  s.jobs.find? (fun j => j.id == jid)

/-- db.query(JobQueue).filter(post_id == pid, status.in_([PENDING, PROCESSING])).first(). -/
def findActiveJobByPost (s : Store) (pid : Nat) : Option JobRecord :=
  s.jobs.find? (activePred pid)

/-- db.query(JobQueue).filter(source_file == f, status.in_([PENDING, PROCESSING])).first(). -/
def findActiveJobBySourceFile (s : Store) (f : String) : Option JobRecord :=
  s.jobs.find? (sourcePred f)

/-- Number of active jobs referencing a post; the quantity the
at-most-one-active-job invariant bounds. -/
def activeCount (s : Store) (pid : Nat) : Nat :=
  s.jobs.countP (activePred pid)

/-- The at-most-one-active-job-per-post invariant of spec section 3. -/
def atMostOneActive (s : Store) : Prop :=
  ∀ pid, activeCount s pid ≤ 1

/-- ORM-style in-place mutation of the job row with primary key `k`. -/
def updateJob (s : Store) (k : Nat) (f : JobRecord → JobRecord) : Store :=
  { s with jobs := s.jobs.map (fun j => if j.id == k then f j else j) }

/-- ORM-style in-place mutation of the post row with primary key `k`. -/
def updatePost (s : Store) (k : Nat) (f : Post → Post) : Store :=
  { s with posts := s.posts.map (fun p => if p.id == k then f p else p) }

/-- db.add(job); db.commit(): append a row, consuming the autoincrement id. -/
def addJob (s : Store) (j : JobRecord) : Store :=
  { s with jobs := s.jobs ++ [j], nextJobId := s.nextJobId + 1 }

/-- db.add(post); db.commit(). -/
def addPost (s : Store) (p : Post) : Store :=
  { s with posts := s.posts ++ [p], nextPostId := s.nextPostId + 1 }

/-- Platform-to-job-type map built inside `schedule` and `fire`. -/
def jobTypeFor : Platform → JobType
  | .linkedin => .post_to_linkedin
  | .twitter => .post_to_twitter
  | .blog => .post_to_blog

/-- ContentEngineMCP.ingest (mcp_server.py lines 69-140). Creates an
APPROVED post, or — when `source_file` is given and an active job already
references that file — updates that job's post content and the job's
source hash in place. -/
def ingest (hash : String → String) (now : Nat) (s : Store)
    (content : String) (platform : Platform) (source_file : Option String) :
    Store × OpResult :=
  let content_hash := hash content
  let fresh : Store × OpResult :=
    (addPost s
      { id := s.nextPostId, content := content, platform := platform,
        status := .approved, scheduled_at := none, posted_at := none,
        external_id := none, error_message := none, updated_at := now },
     .created s.nextPostId)
  match source_file with
  | none => fresh
  | some f =>
    match findActiveJobBySourceFile s f with
    | none => fresh
    | some existing =>
      let s1 := updatePost s existing.post_id
        (fun p => { p with content := content, updated_at := now })
      let s2 := updateJob s1 existing.id
        (fun j => { j with source_hash := some content_hash, updated_at := now })
      (s2, .updated existing.post_id existing.id)

/-- ContentEngineMCP.schedule (mcp_server.py lines 142-239). `when` is the
parsed `scheduled_at` argument; the ISO-format parse failure branch is not
modelled since `when` arrives already as a timestamp. -/
def schedule (hash : String → String) (now : Nat) (s : Store)
    (post_id : Nat) (when : Nat) (priority : Int) (source_file : Option String) :
    Except String (Store × OpResult) :=
  match findPost s post_id with
  | none => .error "Post not found"
  | some post =>
    if canSchedule post.status then
      if when < now then .error "Scheduled time must be in the future"
      else
        match findActiveJobByPost s post_id with
        | some existing =>
          let s1 := updateJob s existing.id (fun j =>
            { j with scheduled_at := some when, priority := priority,
                     source_hash := some (hash post.content),
                     source_file := match source_file with
                       | some f => some f
                       | none => j.source_file,
                     updated_at := now })
          .ok (s1, .rescheduled existing.id post_id when)
        | none =>
          let s1 := addJob s
            { id := s.nextJobId, job_type := jobTypeFor post.platform,
              status := .pending, post_id := post_id,
              scheduled_at := some when, priority := priority,
              attempts := 0, max_attempts := 3, last_error := none,
              next_retry_at := none, started_at := none, completed_at := none,
              source_file := source_file, source_hash := some (hash post.content),
              created_at := now, updated_at := now }
          let s2 := updatePost s1 post_id (fun p =>
            { p with status := .scheduled, scheduled_at := some when })
          .ok (s2, .scheduled s.nextJobId post_id when)
    else .error "Post must be APPROVED or DRAFT"

/-- ContentEngineMCP.fire (mcp_server.py lines 241-283). Unconditionally
inserts a new PENDING job with no scheduled time and priority 100. -/
def fire (now : Nat) (s : Store) (post_id : Nat) :
    Except String (Store × OpResult) :=
  match findPost s post_id with
  | none => .error "Post not found"
  | some post =>
    .ok (addJob s
      { id := s.nextJobId, job_type := jobTypeFor post.platform,
        status := .pending, post_id := post_id,
        scheduled_at := none, priority := 100,
        attempts := 0, max_attempts := 3, last_error := none,
        next_retry_at := none, started_at := none, completed_at := none,
        source_file := none, source_hash := none,
        created_at := now, updated_at := now },
      .queued_immediate s.nextJobId post_id)

/-- The `if job_id:` branch of ContentEngineMCP.cancel (mcp_server.py
lines 297-319): cancels one PENDING job and reverts its post. -/
def cancel_job (now : Nat) (s : Store) (jid : Nat) :
    Except String (Store × OpResult) :=
  match findJob s jid with
  | none => .error "Job not found"
  | some job =>
    match job.status with
    | .pending =>
      let s1 := updateJob s jid (fun j =>
        { j with status := .cancelled, updated_at := now })
      let s2 := updatePost s1 job.post_id (fun p =>
        { p with status := .approved, scheduled_at := none })
      .ok (s2, .cancelled jid job.post_id)
    | _ => .error "Can only cancel PENDING jobs"

/-- The `elif post_id:` branch of ContentEngineMCP.cancel (mcp_server.py
lines 321-348): cancels every PENDING job of the post. -/
def cancel_post (now : Nat) (s : Store) (pid : Nat) :
    Except String (Store × OpResult) :=
  let targets := s.jobs.filter (fun j => (j.post_id == pid) && isPendingStatus j.status)
  if targets.isEmpty then .ok (s, .cancel_none)
  else
    let s1 : Store := { s with jobs := s.jobs.map (fun j =>
      if (j.post_id == pid) && isPendingStatus j.status then
        { j with status := .cancelled, updated_at := now }
      else j) }
    let s2 := updatePost s1 pid (fun p =>
      { p with status := .approved, scheduled_at := none })
    .ok (s2, .cancelled_many (targets.map JobRecord.id) pid)

/-- ContentEngineMCP.cancel (mcp_server.py lines 285-351): dispatch on
which identifier was supplied. -/
def cancel (now : Nat) (s : Store) (job_id : Option Nat) (post_id : Option Nat) :
    Except String (Store × OpResult) :=
  match job_id with
  | some jid => cancel_job now s jid
  | none =>
    match post_id with
    | some pid => cancel_post now s pid
    | none => .error "Must provide either job_id or post_id"

/-- ContentEngineMCP.sync (mcp_server.py lines 475-531). Computes the new
content hash, finds the active job tracking the source file, and updates
post content and job source_hash only when the hash differs. -/
def sync (hash : String → String) (now : Nat) (s : Store)
    (source_file : String) (content : String) : Store × OpResult :=
  let new_hash := hash content
  match findActiveJobBySourceFile s source_file with
  | none => (s, .sync_not_found)
  | some job =>
    if job.source_hash == some new_hash then
      (s, .sync_unchanged job.id job.post_id)
    else
      let s1 := updatePost s job.post_id
        (fun p => { p with content := content, updated_at := now })
      let s2 := updateJob s1 job.id
        (fun j => { j with source_hash := some new_hash, updated_at := now })
      (s2, .sync_updated job.id job.post_id)

/-- Comparison `col <= now` on a nullable column: NULL passes the
`is_(None) |` disjunct of the due filter. -/
def optLe (o : Option Nat) (now : Nat) : Bool :=
  match o with
  | none => true
  | some t => decide (t ≤ now)

/-- The due predicate of JobWorker.process_queue (job_worker.py lines 60-63):
status = PENDING AND (scheduled_at IS NULL OR scheduled_at <= now)
AND (next_retry_at IS NULL OR next_retry_at <= now). -/
def isDue (now : Nat) (j : JobRecord) : Bool :=
  isPendingStatus j.status && optLe j.scheduled_at now && optLe j.next_retry_at now

/-- Sort key for `ORDER BY scheduled_at ASC` on a nullable column: SQLite
places NULL first under ASC, so NULL maps below every real timestamp. -/
def schedKey : Option Nat → Nat
  | none => 0
  | some t => t + 1

/-- The ordering of the due query (job_worker.py lines 64-67): priority
descending, then scheduled_at ascending. -/
def dueLe (a b : JobRecord) : Bool :=
  decide (b.priority < a.priority)
    || (decide (a.priority = b.priority)
        && decide (schedKey a.scheduled_at ≤ schedKey b.scheduled_at))

/-- The due ordering as a decidable relation, for sorting. -/
def dueLeP (a b : JobRecord) : Prop := dueLe a b = true

instance : DecidableRel dueLeP := fun a b => instDecidableEqBool (dueLe a b) true

/-- The due-job query of JobWorker.process_queue: filter by the due
predicate, ordered by priority descending then scheduled_at ascending
(a stable sort models the SQL ORDER BY). -/
def findDue (now : Nat) (s : Store) : List JobRecord :=
  List.insertionSort dueLeP (s.jobs.filter (isDue now))

/-- Retry backoff schedule in seconds (JobWorker.RETRY_BACKOFF). -/
def RETRY_BACKOFF : List Nat := [60, 300, 900, 3600]

/-- RETRY_BACKOFF[min(attempts - 1, len(RETRY_BACKOFF) - 1)] as Python
evaluates it: for a zero attempts count the index -1 resolves to the last
entry by Python negative indexing (that case is unreachable from
process_queue, which increments attempts before any failure). -/
def backoffSeconds (attempts : Nat) : Nat :=
  if attempts = 0 then RETRY_BACKOFF.getLastD 0
  else RETRY_BACKOFF.getD (min (attempts - 1) (RETRY_BACKOFF.length - 1)) 0

/-- First commit of JobWorker._process_job (job_worker.py lines 96-100):
mark the job PROCESSING, stamp started_at, increment attempts. -/
def mark_processing (now : Nat) (s : Store) (jid : Nat) : Store :=
  updateJob s jid (fun j =>
    { j with status := .processing, started_at := some now,
             attempts := j.attempts + 1 })

/-- Second commit of JobWorker._process_job on success (job_worker.py
lines 118-128): job COMPLETED with completed_at stamped and last_error
cleared; post POSTED with posted_at and external_id set. -/
def complete_job (now : Nat) (s : Store) (jid : Nat) (pid : Nat)
    (external_id : String) : Store :=
  let s1 := updateJob s jid (fun j =>
    { j with status := .completed, completed_at := some now, last_error := none })
  updatePost s1 pid (fun p =>
    { p with status := .posted, posted_at := some now,
             external_id := some external_id })

/-- JobWorker._handle_failure (job_worker.py lines 185-213): record the
error; terminal FAILED on job and post once attempts reach max_attempts,
otherwise back to PENDING with next_retry_at set from the backoff table. -/
def handle_failure (now : Nat) (s : Store) (jid : Nat) (error : String) : Store :=
  match findJob s jid with
  | none => s
  | some job =>
    if job.max_attempts ≤ job.attempts then
      let s1 := updateJob s jid (fun j =>
        { j with last_error := some error, status := .failed })
      updatePost s1 job.post_id (fun p =>
        { p with status := .failed,
                 error_message := some ("Max retries exceeded. Last error: " ++ error) })
    else
      updateJob s jid (fun j =>
        { j with last_error := some error, status := .pending,
                 next_retry_at := some (now + backoffSeconds job.attempts) })

/-- One iteration of the per-job loop of JobWorker.process_queue
(job_worker.py lines 76-82): _process_job wrapped in the per-job
try/except that routes any exception into _handle_failure. The publisher
dispatch of _process_job (job_worker.py lines 104-116) is abstracted as
`pub`, covering _post_to_linkedin and the NotImplementedError stubs; the
Bool result tells whether the job was counted as processed. -/
def process_job (dry_run : Bool) (pub : JobType → Post → Except String String)
    (now : Nat) (s : Store) (job : JobRecord) : Store × Bool :=
  let s1 := mark_processing now s job.id
  match findPost s1 job.post_id with
  | none => (handle_failure now s1 job.id "post missing", false)
  | some post =>
    if dry_run then
      (complete_job now s1 job.id job.post_id ("dry-run-" ++ toString job.id), true)
    else
      match pub job.job_type post with
      | .ok external_id => (complete_job now s1 job.id job.post_id external_id, true)
      | .error e => (handle_failure now s1 job.id e, false)

/-- Fold step of process_queue over the due-job snapshot. -/
def processStep (dry_run : Bool) (pub : JobType → Post → Except String String)
    (now : Nat) (acc : Store × Nat) (job : JobRecord) : Store × Nat :=
  let r := process_job dry_run pub now acc.1 job
  (r.1, acc.2 + (if r.2 then 1 else 0))

/-- JobWorker.process_queue (job_worker.py lines 48-85): take the due
snapshot, then process it sequentially, catching failures per job. -/
def process_queue (dry_run : Bool) (pub : JobType → Post → Except String String)
    (now : Nat) (s : Store) : Store × Nat :=
  (findDue now s).foldl (processStep dry_run pub now) (s, 0)

/-- The store of a successful control-plane call, if any. -/
def okStore : Except String (Store × OpResult) → Option Store
  | .ok (s2, _) => some s2
  | .error _ => none

/-- Did a control-plane call raise (ValueError in the source)? -/
def isErrResult : Except String (Store × OpResult) → Bool
  | .error _ => true
  | .ok _ => false

/-! Query/update commutation lemmas for the list embedding of the tables. -/

theorem findJob_updateJob (s : Store) (k : Nat) (f : JobRecord → JobRecord)
    (jid : Nat) (hid : ∀ j, (f j).id = j.id) :
    findJob (updateJob s k f) jid
      = (findJob s jid).map (fun j => if j.id == k then f j else j) := by
  unfold findJob updateJob
  rw [List.find?_map]
  have hfun : ((fun j : JobRecord => j.id == jid)
        ∘ (fun j => if j.id == k then f j else j))
      = fun j : JobRecord => j.id == jid := by
    funext j
    simp only [Function.comp_apply]
    by_cases h : j.id == k
    · simp [h, hid]
    · simp [h]
  rw [hfun]

theorem findPost_updateJob (s : Store) (k : Nat) (f : JobRecord → JobRecord)
    (pid : Nat) : findPost (updateJob s k f) pid = findPost s pid := rfl

theorem findJob_updatePost (s : Store) (k : Nat) (f : Post → Post)
    (jid : Nat) : findJob (updatePost s k f) jid = findJob s jid := rfl

theorem findPost_updatePost (s : Store) (k : Nat) (f : Post → Post)
    (pid : Nat) (hid : ∀ p, (f p).id = p.id) :
    findPost (updatePost s k f) pid
      = (findPost s pid).map (fun p => if p.id == k then f p else p) := by
  unfold findPost updatePost
  rw [List.find?_map]
  have hfun : ((fun p : Post => p.id == pid)
        ∘ (fun p => if p.id == k then f p else p))
      = fun p : Post => p.id == pid := by
    funext p
    simp only [Function.comp_apply]
    by_cases h : p.id == k
    · simp [h, hid]
    · simp [h]
  rw [hfun]

theorem findPost_addJob (s : Store) (j : JobRecord) (pid : Nat) :
    findPost (addJob s j) pid = findPost s pid := rfl

theorem findJob_addPost (s : Store) (p : Post) (jid : Nat) :
    findJob (addPost s p) jid = findJob s jid := rfl

theorem findJob_id (s : Store) (jid : Nat) (job : JobRecord)
    (h : findJob s jid = some job) : job.id = jid := by
  unfold findJob at h
  simpa using List.find?_some h

theorem findPost_id (s : Store) (pid : Nat) (post : Post)
    (h : findPost s pid = some post) : post.id = pid := by
  unfold findPost at h
  simpa using List.find?_some h

theorem findJob_mem (s : Store) (jid : Nat) (job : JobRecord)
    (h : findJob s jid = some job) : job ∈ s.jobs := by
  unfold findJob at h
  exact List.mem_of_find?_eq_some h

theorem findJob_isSome_of_mem (s : Store) (job : JobRecord)
    (h : job ∈ s.jobs) : (findJob s job.id).isSome := by
  unfold findJob
  rw [List.find?_isSome]
  exact ⟨job, h, by simp⟩

theorem activeCount_updateJob (s : Store) (k : Nat) (f : JobRecord → JobRecord)
    (pid : Nat) (hp : ∀ j, (f j).post_id = j.post_id)
    (hs : ∀ j, (f j).status = j.status) :
    activeCount (updateJob s k f) pid = activeCount s pid := by
  unfold activeCount updateJob
  rw [List.countP_map]
  apply List.countP_congr
  intro j _
  simp only [Function.comp_apply, activePred]
  by_cases h : j.id == k
  · simp [h, hp, hs]
  · simp [h]

theorem activeCount_updatePost (s : Store) (k : Nat) (f : Post → Post)
    (pid : Nat) : activeCount (updatePost s k f) pid = activeCount s pid := rfl

theorem activeCount_addPost (s : Store) (p : Post) (pid : Nat) :
    activeCount (addPost s p) pid = activeCount s pid := rfl

theorem activeCount_addJob (s : Store) (j : JobRecord) (pid : Nat) :
    activeCount (addJob s j) pid
      = activeCount s pid + (if activePred pid j then 1 else 0) := by
  unfold activeCount addJob
  simp [List.countP_append, List.countP_cons]

theorem activeCount_eq_zero_of_find_none (s : Store) (pid : Nat)
    (h : findActiveJobByPost s pid = none) : activeCount s pid = 0 := by
  unfold findActiveJobByPost at h
  rw [List.find?_eq_none] at h
  unfold activeCount
  rw [List.countP_eq_zero]
  exact h

/-! Concrete fixtures used by counterexamples and witnesses. -/

/-- Stand-in for the sha256-prefix hash; only hash equality is inspected. -/
def trivialHash : String → String := fun _ => ""

def approvedPost : Post :=
  { id := 1, content := "hello", platform := .linkedin, status := .approved,
    scheduled_at := none, posted_at := none, external_id := none,
    error_message := none, updated_at := 0 }

def baseJob : JobRecord :=
  { id := 1, job_type := .post_to_linkedin, status := .pending, post_id := 1,
    scheduled_at := none, priority := 100, attempts := 0, max_attempts := 3,
    last_error := none, next_retry_at := none, started_at := none,
    completed_at := none, source_file := none, source_hash := none,
    created_at := 0, updated_at := 0 }

def storeNoJob : Store :=
  { posts := [approvedPost], jobs := [], nextPostId := 2, nextJobId := 2 }

def storeActiveJob : Store :=
  { posts := [approvedPost], jobs := [baseJob], nextPostId := 2, nextJobId := 2 }

def processingJob : JobRecord := { baseJob with status := .processing }

def storeProcessingJob : Store :=
  { posts := [approvedPost], jobs := [processingJob], nextPostId := 2, nextJobId := 2 }

/-- C9 counterexample: the claim asserts Schedule fails for every
when ≤ now, including when exactly equal to now. The code only rejects
strictly past times (mcp_server.py line 175: `if schedule_time <
datetime.utcnow()`), so a call with when = now = 5 on an APPROVED post
succeeds instead of failing. -/
theorem C9_counterexample :
    isErrResult (schedule trivialHash 5 storeNoJob 1 5 0 none) = false := rfl

/-- C9 amended: Schedule(postID, when, priority) raises ValidationError
when the Post does not exist or its status is not in {Approved, Draft},
and fails for every `when` strictly earlier than now (when < now); a
raised error returns no store, so no JobRecord is created or modified. A
call with `when` exactly equal to now is accepted. -/
theorem C9_amended_validation (hash : String → String) (now : Nat) (s : Store)
    (pid : Nat) (when : Nat) (prio : Int) (sf : Option String) :
    (findPost s pid = none →
        isErrResult (schedule hash now s pid when prio sf) = true)
    ∧ (∀ post, findPost s pid = some post → canSchedule post.status = false →
        isErrResult (schedule hash now s pid when prio sf) = true)
    ∧ (∀ post, findPost s pid = some post → when < now →
        isErrResult (schedule hash now s pid when prio sf) = true) := by
  refine ⟨?_, ?_, ?_⟩
  · intro h
    unfold schedule
    rw [h]
    rfl
  · intro post h hc
    unfold schedule
    rw [h]
    simp [hc, isErrResult]
  · intro post h hw
    unfold schedule
    rw [h]
    by_cases hc : canSchedule post.status
    · simp [hc, hw, isErrResult]
    · simp [hc, isErrResult]

/-- Witness for C9 amended at concrete inputs: a missing post id is
rejected. -/
theorem C9_amended_witness :
    isErrResult (schedule trivialHash 5 storeNoJob 7 9 0 none) = true :=
  (C9_amended_validation trivialHash 5 storeNoJob 7 9 0 none).1 rfl

/-- C7: Cancel(jobID) succeeds only on a PENDING job, setting it
CANCELLED, reverting the owning Post to APPROVED and clearing its
scheduled_at; on a job in any other status it raises ValidationError, and
since the raise commits nothing the job is unchanged
(mcp_server.py lines 297-319). -/
theorem C7_cancel_pending_only (now : Nat) (s : Store) (jid : Nat) (job : JobRecord)
    (hfind : findJob s jid = some job) :
    (job.status = .pending →
        ((okStore (cancel now s (some jid) none)).bind
            (fun s2 => findJob s2 jid)).map JobRecord.status
          = some JobStatus.cancelled
        ∧ ∀ post, findPost s job.post_id = some post →
            ((okStore (cancel now s (some jid) none)).bind
                (fun s2 => findPost s2 job.post_id)).map Post.status
              = some PostStatus.approved
            ∧ ((okStore (cancel now s (some jid) none)).bind
                (fun s2 => findPost s2 job.post_id)).map Post.scheduled_at
              = some none)
    ∧ (job.status ≠ .pending →
        isErrResult (cancel now s (some jid) none) = true) := by
  have hjid : job.id = jid := findJob_id s jid job hfind
  have hdispatch : cancel now s (some jid) none = cancel_job now s jid := rfl
  constructor
  · intro hp
    rw [hdispatch]
    unfold cancel_job
    rw [hfind]
    dsimp only
    rw [hp]
    dsimp only
    simp only [okStore, Option.some_bind]
    constructor
    · rw [findJob_updatePost, findJob_updateJob, hfind]
      · simp [hjid]
      · intro j
        rfl
    · intro post hpost
      rw [findPost_updatePost, findPost_updateJob, hpost]
      · have hpid : post.id = job.post_id := findPost_id s job.post_id post hpost
        simp [hpid]
      · intro p
        rfl
  · intro hne
    rw [hdispatch]
    unfold cancel_job
    rw [hfind]
    dsimp only
    cases hst : job.status
    · exact absurd hst hne
    all_goals rfl

/-- Witness for C7: cancelling the pending job of `storeActiveJob`
cancels it, and cancelling the same job while PROCESSING errors. -/
theorem C7_witness :
    ((okStore (cancel 5 storeActiveJob (some 1) none)).bind
        (fun s2 => findJob s2 1)).map JobRecord.status = some JobStatus.cancelled
    ∧ isErrResult (cancel 5 storeProcessingJob (some 1) none) = true := by
  constructor
  · exact ((C7_cancel_pending_only 5 storeActiveJob 1 baseJob rfl).1 rfl).1
  · exact (C7_cancel_pending_only 5 storeProcessingJob 1 processingJob rfl).2
      (by decide)

/-- C8: Sync(sourceFile, content) is a no-op returning "not_found" when no
active job tracks the file; when the content hash equals the stored
source_hash it returns "unchanged" and the store — hence every field of
the job and its Post, including the job's updated_at — is untouched; when
the hash differs it updates the Post's content and the job's
source_hash/updated_at, does not reset attempts, and creates no new
JobRecord (mcp_server.py lines 475-531). -/
theorem C8_sync_frame (hash : String → String) (now : Nat) (s : Store)
    (f : String) (content : String) :
    (findActiveJobBySourceFile s f = none →
        sync hash now s f content = (s, OpResult.sync_not_found))
    ∧ ∀ job, findActiveJobBySourceFile s f = some job →
        (job.source_hash = some (hash content) →
            sync hash now s f content = (s, OpResult.sync_unchanged job.id job.post_id))
        ∧ (job.source_hash ≠ some (hash content) →
            (sync hash now s f content).2 = OpResult.sync_updated job.id job.post_id
            ∧ (sync hash now s f content).1.jobs.length = s.jobs.length
            ∧ (findJob (sync hash now s f content).1 job.id).map JobRecord.source_hash
                = some (some (hash content))
            ∧ (findJob (sync hash now s f content).1 job.id).map JobRecord.updated_at
                = some now
            ∧ (findJob (sync hash now s f content).1 job.id).map JobRecord.attempts
                = (findJob s job.id).map JobRecord.attempts
            ∧ ∀ post, findPost s job.post_id = some post →
                (findPost (sync hash now s f content).1 job.post_id).map Post.content
                  = some content) := by
  constructor
  · intro h
    unfold sync
    rw [h]
  · intro job hfound
    have hmem : job ∈ s.jobs := by
      unfold findActiveJobBySourceFile at hfound
      exact List.mem_of_find?_eq_some hfound
    constructor
    · intro hh
      unfold sync
      rw [hfound]
      simp [hh]
    · intro hne
      have hcond : ¬ ((job.source_hash == some (hash content)) = true) := by
        simp [hne]
      unfold sync
      rw [hfound]
      dsimp only
      rw [if_neg hcond]
      dsimp only
      refine ⟨rfl, by simp [updateJob, updatePost], ?_, ?_⟩
      · have hsome := findJob_isSome_of_mem s job hmem
        rcases h0 : findJob s job.id with _ | j0
        · rw [h0] at hsome
          simp at hsome
        · have hj0 : j0.id = job.id := findJob_id s job.id j0 h0
          rw [findJob_updateJob, findJob_updatePost, h0]
          · simp [hj0]
          · intro j
            rfl
      · have hsome := findJob_isSome_of_mem s job hmem
        rcases h0 : findJob s job.id with _ | j0
        · rw [h0] at hsome
          simp at hsome
        · have hj0 : j0.id = job.id := findJob_id s job.id j0 h0
          refine ⟨?_, ?_, ?_⟩
          · rw [findJob_updateJob, findJob_updatePost, h0]
            · simp [hj0]
            · intro j
              rfl
          · rw [findJob_updateJob, findJob_updatePost, h0]
            · simp [hj0]
            · intro j
              rfl
          · intro post hpost
            rw [findPost_updateJob, findPost_updatePost, hpost]
            · have hpid : post.id = job.post_id :=
                findPost_id s job.post_id post hpost
              simp [hpid]
            · intro p
              rfl

/-- C8 fixtures: a job tracking `post.md` with the current hash, and one
with a stale hash. -/
def trackedJob : JobRecord :=
  { baseJob with source_file := some "post.md", source_hash := some "" }

def storeTracked : Store :=
  { posts := [approvedPost], jobs := [trackedJob], nextPostId := 2, nextJobId := 2 }

def staleJob : JobRecord :=
  { baseJob with source_file := some "post.md", source_hash := some "x" }

def storeStale : Store :=
  { posts := [approvedPost], jobs := [staleJob], nextPostId := 2, nextJobId := 2 }

/-- Witness for C8 at concrete inputs: untracked file is a no-op, matching
hash mutates nothing, differing hash reports an update. -/
theorem C8_witness :
    sync trivialHash 5 storeNoJob "post.md" "hello"
      = (storeNoJob, OpResult.sync_not_found)
    ∧ sync trivialHash 5 storeTracked "post.md" "hello"
      = (storeTracked, OpResult.sync_unchanged 1 1)
    ∧ (sync trivialHash 5 storeStale "post.md" "hello").2
      = OpResult.sync_updated 1 1 := by
  refine ⟨?_, ?_, ?_⟩
  · exact (C8_sync_frame trivialHash 5 storeNoJob "post.md" "hello").1 rfl
  · exact (((C8_sync_frame trivialHash 5 storeTracked "post.md" "hello").2
      trackedJob rfl).1 rfl)
  · exact (((C8_sync_frame trivialHash 5 storeStale "post.md" "hello").2
      staleJob rfl).2 (by decide)).1

/-- C1 counterexample: the claim asserts every Scheduler operation,
including Fire on a post that already has an active job, preserves the
at-most-one-active-job invariant. On a store satisfying the invariant
with one PENDING job for post 1, fire(1) succeeds and leaves two active
jobs for post 1, violating it (mcp_server.py lines 264-274 insert
unconditionally). -/
theorem C1_counterexample :
    atMostOneActive storeActiveJob
    ∧ (okStore (fire 5 storeActiveJob 1)).map (fun s2 => activeCount s2 1)
        = some 2 := by
  constructor
  · intro pid
    unfold activeCount storeActiveJob
    cases h : activePred pid baseJob <;>
      simp [List.countP_cons, h]
  · rfl

/-- C1 amended: at most one JobRecord with status in {Pending, Processing}
per post_id is preserved by Ingest and by Schedule (each updates the
existing active job instead of inserting a duplicate); Fire, however,
inserts a new PENDING job unconditionally, so it preserves the invariant
only when no active job exists for the target post — called while an
active job for postID exists it violates the invariant, as the
counterexample shows. -/
theorem C1_amended_at_most_one_active (hash : String → String) (now : Nat)
    (s : Store) (hinv : atMostOneActive s) :
    (∀ content platform sf,
        atMostOneActive (ingest hash now s content platform sf).1)
    ∧ (∀ pid when prio sf s2 r,
        schedule hash now s pid when prio sf = .ok (s2, r) → atMostOneActive s2)
    ∧ (∀ pid s2 r, activeCount s pid = 0 →
        fire now s pid = .ok (s2, r) → atMostOneActive s2) := by
  refine ⟨?_, ?_, ?_⟩
  · intro content platform sf
    unfold ingest
    cases sf
    · exact fun pid => hinv pid
    · rename_i f
      dsimp only
      cases hfind : findActiveJobBySourceFile s f
      · exact fun pid => hinv pid
      · rename_i existing
        dsimp only
        intro pid
        rw [activeCount_updateJob]
        · exact hinv pid
        · intro j
          rfl
        · intro j
          rfl
  · intro pid when prio sf s2 r h
    unfold schedule at h
    cases hfp : findPost s pid
    · rw [hfp] at h
      simp at h
    case some post =>
      rw [hfp] at h
      dsimp only at h
      by_cases hc : canSchedule post.status = true
      · rw [if_pos hc] at h
        by_cases hw : when < now
        · rw [if_pos hw] at h
          simp at h
        · rw [if_neg hw] at h
          cases hfa : findActiveJobByPost s pid
          · rw [hfa] at h
            dsimp only at h
            rw [Except.ok.injEq, Prod.mk.injEq] at h
            obtain ⟨h1, h2⟩ := h
            subst h1
            intro q
            rw [activeCount_updatePost, activeCount_addJob]
            by_cases hq : q = pid
            · subst hq
              have hz := activeCount_eq_zero_of_find_none s q hfa
              simp [hz, activePred, isActiveStatus]
            · have : activePred q
                  { id := s.nextJobId, job_type := jobTypeFor post.platform,
                    status := .pending, post_id := pid,
                    scheduled_at := some when, priority := prio,
                    attempts := 0, max_attempts := 3, last_error := none,
                    next_retry_at := none, started_at := none, completed_at := none,
                    source_file := sf, source_hash := some (hash post.content),
                    created_at := now, updated_at := now } = false := by
                simp [activePred]
                intro hcontra
                exact absurd hcontra (Ne.symm hq)
              rw [this]
              simpa using hinv q
          · rename_i existing
            rw [hfa] at h
            dsimp only at h
            rw [Except.ok.injEq, Prod.mk.injEq] at h
            obtain ⟨h1, h2⟩ := h
            subst h1
            intro q
            rw [activeCount_updateJob]
            · exact hinv q
            · intro j
              rfl
            · intro j
              rfl
      · rw [if_neg hc] at h
        simp at h
  · intro pid s2 r hz h
    unfold fire at h
    cases hfp : findPost s pid
    · rw [hfp] at h
      simp at h
    case some post =>
      rw [hfp] at h
      dsimp only at h
      rw [Except.ok.injEq, Prod.mk.injEq] at h
      obtain ⟨h1, h2⟩ := h
      subst h1
      intro q
      rw [activeCount_addJob]
      by_cases hq : q = pid
      · subst hq
        simp [hz, activePred, isActiveStatus]
      · have : activePred q
            { id := s.nextJobId, job_type := jobTypeFor post.platform,
              status := .pending, post_id := pid,
              scheduled_at := none, priority := 100,
              attempts := 0, max_attempts := 3, last_error := none,
              next_retry_at := none, started_at := none, completed_at := none,
              source_file := none, source_hash := none,
              created_at := now, updated_at := now } = false := by
          simp [activePred]
          intro hcontra
          exact absurd hcontra (Ne.symm hq)
        rw [this]
        simpa using hinv q

/-- Witness for C1 amended: ingest into a store satisfying the invariant
keeps it; schedule on a store with no active job keeps it; fire on a post
with no active job keeps it. -/
theorem C1_amended_witness :
    atMostOneActive (ingest trivialHash 5 storeNoJob "c" Platform.linkedin none).1 := by
  have hinv : atMostOneActive storeNoJob := by
    intro pid
    simp [activeCount, storeNoJob]
  exact (C1_amended_at_most_one_active trivialHash 5 storeNoJob hinv).1 "c"
    Platform.linkedin none

/-- C2 counterexample: the claim asserts every successful Schedule call,
including the reschedule-in-place branch, sets the Post's status to
Scheduled and its scheduled_at to `when`. On a store with an APPROVED
post (scheduled_at = none) that already has an active job (as Fire
creates), schedule at when = 10 takes the reschedule branch
(mcp_server.py lines 195-210), which returns before the
`post.status = SCHEDULED; post.scheduled_at = ...` lines 225-226 run:
the post stays APPROVED with scheduled_at = none. -/
theorem C2_counterexample :
    ((okStore (schedule trivialHash 5 storeActiveJob 1 10 0 none)).bind
        (fun s2 => findPost s2 1)).map Post.status = some PostStatus.approved
    ∧ ((okStore (schedule trivialHash 5 storeActiveJob 1 10 0 none)).bind
        (fun s2 => findPost s2 1)).map Post.scheduled_at = some none := by
  exact ⟨rfl, rfl⟩

/-- C2 amended: a successful Schedule(postID, when, priority) sets the
Post's status to Scheduled and its scheduled_at to `when` only in the
branch that creates a new JobRecord (result "scheduled"); in the branch
that finds an existing active job and reschedules it in place (result
"rescheduled") only the job is updated and the Post is left entirely
unchanged. -/
theorem C2_amended_schedule_post (hash : String → String) (now : Nat)
    (s : Store) (pid : Nat) (when : Nat) (prio : Int) (sf : Option String)
    (s2 : Store) :
    (∀ jid p2 t,
        schedule hash now s pid when prio sf = .ok (s2, .scheduled jid p2 t) →
        (findPost s2 pid).map Post.status = some PostStatus.scheduled
        ∧ (findPost s2 pid).map Post.scheduled_at = some (some when))
    ∧ (∀ jid p2 t,
        schedule hash now s pid when prio sf = .ok (s2, .rescheduled jid p2 t) →
        findPost s2 pid = findPost s pid) := by
  constructor
  · intro jid p2 t h
    unfold schedule at h
    cases hfp : findPost s pid
    · rw [hfp] at h
      simp at h
    case some post =>
      rw [hfp] at h
      dsimp only at h
      by_cases hc : canSchedule post.status = true
      · rw [if_pos hc] at h
        by_cases hw : when < now
        · rw [if_pos hw] at h
          simp at h
        · rw [if_neg hw] at h
          cases hfa : findActiveJobByPost s pid
          · rw [hfa] at h
            dsimp only at h
            rw [Except.ok.injEq, Prod.mk.injEq] at h
            obtain ⟨h1, h2⟩ := h
            subst h1
            have hpid : post.id = pid := findPost_id s pid post hfp
            constructor
            · rw [findPost_updatePost, findPost_addJob, hfp]
              · simp [hpid]
              · intro p
                rfl
            · rw [findPost_updatePost, findPost_addJob, hfp]
              · simp [hpid]
              · intro p
                rfl
          · rename_i existing
            rw [hfa] at h
            dsimp only at h
            rw [Except.ok.injEq, Prod.mk.injEq] at h
            obtain ⟨h1, h2⟩ := h
            simp at h2
      · rw [if_neg hc] at h
        simp at h
  · intro jid p2 t h
    unfold schedule at h
    cases hfp : findPost s pid
    · rw [hfp] at h
      simp at h
    case some post =>
      rw [hfp] at h
      dsimp only at h
      by_cases hc : canSchedule post.status = true
      · rw [if_pos hc] at h
        by_cases hw : when < now
        · rw [if_pos hw] at h
          simp at h
        · rw [if_neg hw] at h
          cases hfa : findActiveJobByPost s pid
          · rw [hfa] at h
            dsimp only at h
            rw [Except.ok.injEq, Prod.mk.injEq] at h
            obtain ⟨h1, h2⟩ := h
            simp at h2
          · rename_i existing
            rw [hfa] at h
            dsimp only at h
            rw [Except.ok.injEq, Prod.mk.injEq] at h
            obtain ⟨h1, h2⟩ := h
            subst h1
            rw [findPost_updateJob]
            exact hfp
      · rw [if_neg hc] at h
        simp at h

/-- Result store of a fresh schedule call used by the C2 witness. -/
def c2Out : Store :=
  (okStore (schedule trivialHash 5 storeNoJob 1 10 0 none)).getD storeNoJob

/-- Witness for C2 amended: scheduling a post with no existing active job
takes the create branch and marks the post Scheduled at time 10. -/
theorem C2_amended_witness :
    (findPost c2Out 1).map Post.status = some PostStatus.scheduled
    ∧ (findPost c2Out 1).map Post.scheduled_at = some (some 10) :=
  (C2_amended_schedule_post trivialHash 5 storeNoJob 1 10 0 none c2Out).1
    2 1 10 rfl

/-- C4: on failure of a job, if attempts >= max_attempts the job becomes
Failed and its Post becomes Failed with error_message
"Max retries exceeded. Last error: {error}"; otherwise the job reverts to
Pending with last_error recorded and next_retry_at = now +
backoff[attempts-1], the index clamped to the last entry of the table
[60, 300, 900, 3600] (job_worker.py lines 38 and 185-213). The retry
branch is stated for attempts >= 1, which process_queue guarantees by
incrementing attempts before any failure can occur. -/
theorem C4_retry_policy (now : Nat) (s : Store) (jid : Nat) (err : String)
    (job : JobRecord) (hfind : findJob s jid = some job) :
    RETRY_BACKOFF = [60, 300, 900, 3600]
    ∧ (job.max_attempts ≤ job.attempts →
        (findJob (handle_failure now s jid err) jid).map JobRecord.status
            = some JobStatus.failed
        ∧ (findJob (handle_failure now s jid err) jid).map JobRecord.last_error
            = some (some err)
        ∧ ∀ post, findPost s job.post_id = some post →
            (findPost (handle_failure now s jid err) job.post_id).map Post.status
                = some PostStatus.failed
            ∧ (findPost (handle_failure now s jid err) job.post_id).map
                  Post.error_message
                = some (some ("Max retries exceeded. Last error: " ++ err)))
    ∧ (job.attempts < job.max_attempts → 1 ≤ job.attempts →
        (findJob (handle_failure now s jid err) jid).map JobRecord.status
            = some JobStatus.pending
        ∧ (findJob (handle_failure now s jid err) jid).map JobRecord.last_error
            = some (some err)
        ∧ (findJob (handle_failure now s jid err) jid).map JobRecord.next_retry_at
            = some (some (now + RETRY_BACKOFF.getD
                (min (job.attempts - 1) (RETRY_BACKOFF.length - 1)) 0))) := by
  have hjid : job.id = jid := findJob_id s jid job hfind
  refine ⟨rfl, ?_, ?_⟩
  · intro hmax
    unfold handle_failure
    rw [hfind]
    dsimp only
    rw [if_pos hmax]
    refine ⟨?_, ?_, ?_⟩
    · rw [findJob_updatePost, findJob_updateJob, hfind]
      · simp [hjid]
      · intro j
        rfl
    · rw [findJob_updatePost, findJob_updateJob, hfind]
      · simp [hjid]
      · intro j
        rfl
    · intro post hpost
      have hpid : post.id = job.post_id := findPost_id s job.post_id post hpost
      constructor
      · rw [findPost_updatePost, findPost_updateJob, hpost]
        · simp [hpid]
        · intro p
          rfl
      · rw [findPost_updatePost, findPost_updateJob, hpost]
        · simp [hpid]
        · intro p
          rfl
  · intro hlt hpos
    have hnot : ¬ (job.max_attempts ≤ job.attempts) := by omega
    have hback : backoffSeconds job.attempts
        = RETRY_BACKOFF.getD (min (job.attempts - 1) (RETRY_BACKOFF.length - 1)) 0 := by
      unfold backoffSeconds
      rw [if_neg (by omega)]
    unfold handle_failure
    rw [hfind]
    dsimp only
    rw [if_neg hnot]
    refine ⟨?_, ?_, ?_⟩
    · rw [findJob_updateJob, hfind]
      · simp [hjid]
      · intro j
        rfl
    · rw [findJob_updateJob, hfind]
      · simp [hjid]
      · intro j
        rfl
    · rw [findJob_updateJob, hfind]
      · simp [hjid, hback]
      · intro j
        rfl

/-- C4 fixtures: a job out of attempts and one on its first failure. -/
def exhaustedJob : JobRecord := { baseJob with attempts := 3 }

def storeExhausted : Store :=
  { posts := [approvedPost], jobs := [exhaustedJob], nextPostId := 2, nextJobId := 2 }

def retryJob : JobRecord := { baseJob with attempts := 1 }

def storeRetry : Store :=
  { posts := [approvedPost], jobs := [retryJob], nextPostId := 2, nextJobId := 2 }

/-- Witness for C4 at concrete inputs: an exhausted job (attempts = 3,
max_attempts = 3) goes terminal with its post Failed; a first failure
(attempts = 1) gets next_retry_at = 100 + 60. -/
theorem C4_witness :
    (findJob (handle_failure 100 storeExhausted 1 "boom") 1).map JobRecord.status
        = some JobStatus.failed
    ∧ (findPost (handle_failure 100 storeExhausted 1 "boom") 1).map Post.status
        = some PostStatus.failed
    ∧ (findJob (handle_failure 100 storeRetry 1 "boom") 1).map JobRecord.next_retry_at
        = some (some 160) := by
  refine ⟨?_, ?_, ?_⟩
  · exact ((C4_retry_policy 100 storeExhausted 1 "boom" exhaustedJob rfl).2.1
      (by decide)).1
  · exact (((C4_retry_policy 100 storeExhausted 1 "boom" exhaustedJob rfl).2.1
      (by decide)).2.2 approvedPost rfl).1
  · exact ((C4_retry_policy 100 storeRetry 1 "boom" retryJob rfl).2.2
      (by decide) (by decide)).2.2

theorem dueLe_trans : ∀ a b c : JobRecord, dueLe a b → dueLe b c → dueLe a c := by
  intro a b c hab hbc
  simp only [dueLe, Bool.or_eq_true, Bool.and_eq_true, decide_eq_true_eq] at hab hbc ⊢
  omega

theorem dueLe_total : ∀ a b : JobRecord, dueLe a b || dueLe b a := by
  intro a b
  simp only [dueLe, Bool.or_eq_true, Bool.and_eq_true, decide_eq_true_eq]
  omega

instance : IsTrans JobRecord dueLeP := ⟨dueLe_trans⟩

instance : IsTotal JobRecord dueLeP :=
  ⟨fun a b => by
    have h := dueLe_total a b
    rcases (Bool.or_eq_true _ _).mp h with h1 | h1
    · exact Or.inl h1
    · exact Or.inr h1⟩

/-- C3: the worker's due-job query returns exactly the jobs with
status = Pending and (scheduled_at null or <= now) and (next_retry_at
null or <= now), ordered by priority descending then scheduled_at
ascending; a Pending job with scheduled_at > now, or next_retry_at > now,
is never returned (job_worker.py lines 54-67). -/
theorem C3_due_query (now : Nat) (s : Store) :
    (findDue now s).Perm (s.jobs.filter (isDue now))
    ∧ (∀ j, j ∈ findDue now s ↔ j ∈ s.jobs ∧ isDue now j = true)
    ∧ List.Pairwise (fun a b => dueLe a b = true) (findDue now s)
    ∧ (∀ j t, j.scheduled_at = some t → now < t → j ∉ findDue now s)
    ∧ (∀ j t, j.next_retry_at = some t → now < t → j ∉ findDue now s) := by
  refine ⟨?_, ?_, ?_, ?_, ?_⟩
  · exact List.perm_insertionSort dueLeP _
  · intro j
    unfold findDue
    rw [List.mem_insertionSort, List.mem_filter]
  · exact List.sorted_insertionSort dueLeP _
  · intro j t hsched hlt hin
    unfold findDue at hin
    rw [List.mem_insertionSort, List.mem_filter] at hin
    have hd := hin.2
    simp [isDue, optLe, hsched] at hd
    omega
  · intro j t hretry hlt hin
    unfold findDue at hin
    rw [List.mem_insertionSort, List.mem_filter] at hin
    have hd := hin.2
    simp [isDue, optLe, hretry] at hd
    omega

/-- C3 fixture: one immediately due job and one scheduled in the future. -/
def futureJob : JobRecord :=
  { baseJob with id := 2, scheduled_at := some 100, priority := 0 }

def storeDueMix : Store :=
  { posts := [approvedPost], jobs := [baseJob, futureJob],
    nextPostId := 2, nextJobId := 3 }

/-- Witness for C3 at a concrete store and time 10: the immediate job is
returned, the job scheduled at 100 is not. -/
theorem C3_witness :
    baseJob ∈ findDue 10 storeDueMix ∧ futureJob ∉ findDue 10 storeDueMix := by
  constructor
  · exact ((C3_due_query 10 storeDueMix).2.1 baseJob).mpr
      ⟨by decide, by decide⟩
  · exact (C3_due_query 10 storeDueMix).2.2.2.1 futureJob 100 rfl (by decide)

/-- The allowed status edges of spec section 3: Pending→Processing,
Processing→Completed, Processing→Pending (retry), Processing→Failed,
Pending→Cancelled. Terminal statuses have no outgoing edge. -/
def allowedEdge : JobStatus → JobStatus → Bool
  | .pending, .processing => true
  | .processing, .completed => true
  | .processing, .pending => true
  | .processing, .failed => true
  | .pending, .cancelled => true
  | _, _ => false

/-- Every job of `s` survives into `t` (same id — no record is deleted)
with its status either unchanged or moved along one allowed edge; since
terminal statuses have no outgoing edge, a Completed/Failed/Cancelled
record must keep its status. -/
def jobsPreserved (s t : Store) : Prop :=
  ∀ j ∈ s.jobs, ∃ j2 ∈ t.jobs, j2.id = j.id
    ∧ (j2.status = j.status ∨ allowedEdge j.status j2.status = true)

theorem jobsPreserved_of_jobs_eq (s t : Store) (h : t.jobs = s.jobs) :
    jobsPreserved s t := by
  intro j hj
  exact ⟨j, h ▸ hj, rfl, Or.inl rfl⟩

theorem jobsPreserved_map (s t : Store) (g : JobRecord → JobRecord)
    (hjobs : t.jobs = s.jobs.map g)
    (hid : ∀ j ∈ s.jobs, (g j).id = j.id)
    (hst : ∀ j ∈ s.jobs,
      (g j).status = j.status ∨ allowedEdge j.status (g j).status = true) :
    jobsPreserved s t := by
  intro j hj
  refine ⟨g j, ?_, hid j hj, hst j hj⟩
  rw [hjobs]
  exact List.mem_map_of_mem g hj

theorem jobsPreserved_append (s t : Store) (l2 : List JobRecord)
    (hjobs : t.jobs = s.jobs ++ l2) : jobsPreserved s t := by
  intro j hj
  refine ⟨j, ?_, rfl, Or.inl rfl⟩
  rw [hjobs]
  exact List.mem_append_left _ hj

/-- With duplicate-free ids, two stored jobs with the same id coincide. -/
theorem job_id_inj (s : Store) (hids : (s.jobs.map JobRecord.id).Nodup)
    (x : JobRecord) (hx : x ∈ s.jobs) (y : JobRecord) (hy : y ∈ s.jobs)
    (hxy : x.id = y.id) : x = y :=
  List.inj_on_of_nodup_map hids hx hy hxy

/-- handle_failure moves only the targeted job, Processing→Failed or
Processing→Pending. -/
theorem jobsPreserved_handle_failure (now : Nat) (u : Store) (jid : Nat)
    (e : String)
    (hproc : ∀ x ∈ u.jobs, x.id = jid → x.status = .processing) :
    jobsPreserved u (handle_failure now u jid e) := by
  unfold handle_failure
  cases hf : findJob u jid
  · exact jobsPreserved_of_jobs_eq u u rfl
  · rename_i j0
    dsimp only
    by_cases hm : j0.max_attempts ≤ j0.attempts
    · rw [if_pos hm]
      apply jobsPreserved_map u _ _ rfl
      · intro j hj
        split <;> rfl
      · intro j hj
        by_cases hb : j.id == jid
        · have hst := hproc j hj (by simpa using hb)
          right
          simp [hb, allowedEdge, hst]
        · left
          simp [hb]
    · rw [if_neg hm]
      apply jobsPreserved_map u _ _ rfl
      · intro j hj
        split <;> rfl
      · intro j hj
        by_cases hb : j.id == jid
        · have hst := hproc j hj (by simpa using hb)
          right
          simp [hb, allowedEdge, hst]
        · left
          simp [hb]

/-- complete_job moves only the targeted job, Processing→Completed. -/
theorem jobsPreserved_complete_job (now : Nat) (u : Store) (jid : Nat)
    (pid : Nat) (ext : String)
    (hproc : ∀ x ∈ u.jobs, x.id = jid → x.status = .processing) :
    jobsPreserved u (complete_job now u jid pid ext) := by
  unfold complete_job
  apply jobsPreserved_map u _ _ rfl
  · intro j hj
    split <;> rfl
  · intro j hj
    by_cases hb : j.id == jid
    · have hst := hproc j hj (by simpa using hb)
      right
      simp [hb, allowedEdge, hst]
    · left
      simp [hb]

/-- C5: every operation of the system — Ingest, Schedule, Fire, Cancel
(both forms), Sync, and each commit of the worker's per-job processing —
deletes no JobRecord and changes a status only along the edges
Pending→Processing, Processing→Completed, Processing→Pending,
Processing→Failed, Pending→Cancelled; terminal records keep their status
(no allowed edge leaves Completed/Failed/Cancelled). The worker's
processing of a due (hence Pending) job is split at its two commit
points: marking Processing, then completing or handling the failure. -/
theorem C5_status_transitions (hash : String → String) (now : Nat) (s : Store)
    (hids : (s.jobs.map JobRecord.id).Nodup) :
    (∀ content platform sf,
        jobsPreserved s (ingest hash now s content platform sf).1)
    ∧ (∀ pid when prio sf s2 r,
        schedule hash now s pid when prio sf = .ok (s2, r) → jobsPreserved s s2)
    ∧ (∀ pid s2 r, fire now s pid = .ok (s2, r) → jobsPreserved s s2)
    ∧ (∀ jid s2 r, cancel now s (some jid) none = .ok (s2, r) → jobsPreserved s s2)
    ∧ (∀ pid s2 r, cancel now s none (some pid) = .ok (s2, r) → jobsPreserved s s2)
    ∧ (∀ f content, jobsPreserved s (sync hash now s f content).1)
    ∧ (∀ dry pub job, job ∈ s.jobs → job.status = .pending →
        jobsPreserved s (mark_processing now s job.id)
        ∧ jobsPreserved (mark_processing now s job.id)
            (process_job dry pub now s job).1) := by
  refine ⟨?_, ?_, ?_, ?_, ?_, ?_, ?_⟩
  · intro content platform sf
    unfold ingest
    cases sf
    · exact jobsPreserved_of_jobs_eq s _ rfl
    · rename_i f
      dsimp only
      cases hfind : findActiveJobBySourceFile s f
      · exact jobsPreserved_of_jobs_eq s _ rfl
      · rename_i existing
        dsimp only
        apply jobsPreserved_map s _ _ rfl
        · intro j hj
          split <;> rfl
        · intro j hj
          left
          by_cases hb : j.id == existing.id
          · simp [hb]
          · simp [hb]
  · intro pid when prio sf s2 r h
    unfold schedule at h
    cases hfp : findPost s pid
    · rw [hfp] at h
      simp at h
    case some post =>
      rw [hfp] at h
      dsimp only at h
      by_cases hc : canSchedule post.status = true
      · rw [if_pos hc] at h
        by_cases hw : when < now
        · rw [if_pos hw] at h
          simp at h
        · rw [if_neg hw] at h
          cases hfa : findActiveJobByPost s pid
          · rw [hfa] at h
            dsimp only at h
            rw [Except.ok.injEq, Prod.mk.injEq] at h
            obtain ⟨h1, h2⟩ := h
            subst h1
            apply jobsPreserved_append s _ _ rfl
          · rename_i existing
            rw [hfa] at h
            dsimp only at h
            rw [Except.ok.injEq, Prod.mk.injEq] at h
            obtain ⟨h1, h2⟩ := h
            subst h1
            apply jobsPreserved_map s _ _ rfl
            · intro j hj
              split <;> rfl
            · intro j hj
              left
              by_cases hb : j.id == existing.id
              · simp [hb]
              · simp [hb]
      · rw [if_neg hc] at h
        simp at h
  · intro pid s2 r h
    unfold fire at h
    cases hfp : findPost s pid
    · rw [hfp] at h
      simp at h
    case some post =>
      rw [hfp] at h
      dsimp only at h
      rw [Except.ok.injEq, Prod.mk.injEq] at h
      obtain ⟨h1, h2⟩ := h
      subst h1
      apply jobsPreserved_append s _ _ rfl
  · intro jid s2 r h
    have hdispatch : cancel now s (some jid) none = cancel_job now s jid := rfl
    rw [hdispatch] at h
    unfold cancel_job at h
    cases hfind : findJob s jid
    · rw [hfind] at h
      simp at h
    case some job =>
      rw [hfind] at h
      dsimp only at h
      have hjid : job.id = jid := findJob_id s jid job hfind
      have hjm : job ∈ s.jobs := findJob_mem s jid job hfind
      cases hst : job.status
      case pending =>
        rw [hst] at h
        dsimp only at h
        rw [Except.ok.injEq, Prod.mk.injEq] at h
        obtain ⟨h1, h2⟩ := h
        subst h1
        apply jobsPreserved_map s _ _ rfl
        · intro j hj
          split <;> rfl
        · intro j hj
          by_cases hb : j.id == jid
          · have hj2 : j = job := by
              apply job_id_inj s hids j hj job hjm
              rw [hjid]
              simpa using hb
            right
            subst hj2
            simp [hb, allowedEdge, hst]
          · left
            simp [hb]
      all_goals
        rw [hst] at h
        simp at h
  · intro pid s2 r h
    have hdispatch : cancel now s none (some pid) = cancel_post now s pid := rfl
    rw [hdispatch] at h
    unfold cancel_post at h
    dsimp only at h
    by_cases he : (s.jobs.filter
        (fun j => (j.post_id == pid) && isPendingStatus j.status)).isEmpty = true
    · rw [if_pos he] at h
      rw [Except.ok.injEq, Prod.mk.injEq] at h
      obtain ⟨h1, h2⟩ := h
      subst h1
      exact jobsPreserved_of_jobs_eq s s rfl
    · rw [if_neg he] at h
      rw [Except.ok.injEq, Prod.mk.injEq] at h
      obtain ⟨h1, h2⟩ := h
      subst h1
      apply jobsPreserved_map s _ _ rfl
      · intro j hj
        by_cases hb : (j.post_id == pid) && isPendingStatus j.status
        · simp [hb]
        · simp [hb]
      · intro j hj
        by_cases hb : (j.post_id == pid) && isPendingStatus j.status
        · right
          have hp : j.status = .pending := by
            have := (Bool.and_eq_true _ _).mp hb
            cases hq : j.status <;> simp [isPendingStatus, hq] at this ⊢
          rw [if_pos hb]
          simp [allowedEdge, hp]
        · left
          simp [hb]
  · intro f content
    unfold sync
    cases hfind : findActiveJobBySourceFile s f
    · exact jobsPreserved_of_jobs_eq s _ rfl
    · rename_i job
      dsimp only
      by_cases hh : (job.source_hash == some (hash content)) = true
      · rw [if_pos hh]
        exact jobsPreserved_of_jobs_eq s _ rfl
      · rw [if_neg hh]
        dsimp only
        apply jobsPreserved_map s _ _ rfl
        · intro j hj
          split <;> rfl
        · intro j hj
          left
          by_cases hb : j.id == job.id
          · simp [hb]
          · simp [hb]
  · intro dry pub job hmem hpend
    have hfirst : jobsPreserved s (mark_processing now s job.id) := by
      unfold mark_processing
      apply jobsPreserved_map s _ _ rfl
      · intro j hj
        split <;> rfl
      · intro j hj
        by_cases hb : j.id == job.id
        · have hj2 : j = job := by
            apply job_id_inj s hids j hj job hmem
            simpa using hb
          right
          subst hj2
          simp [hb, allowedEdge, hpend]
        · left
          simp [hb]
    refine ⟨hfirst, ?_⟩
    have hproc : ∀ x ∈ (mark_processing now s job.id).jobs,
        x.id = job.id → x.status = .processing := by
      intro x hx hxid
      unfold mark_processing updateJob at hx
      simp only [List.mem_map] at hx
      obtain ⟨y, hy, hyx⟩ := hx
      subst hyx
      by_cases hb : y.id == job.id
      · simp [hb]
      · simp [hb] at hxid ⊢
        simp at hb
        exact absurd hxid hb
    unfold process_job
    dsimp only
    cases hfp : findPost (mark_processing now s job.id) job.post_id
    · exact jobsPreserved_handle_failure now _ job.id _ hproc
    · rename_i post
      dsimp only
      cases dry
      · rw [if_neg (by simp)]
        cases hpub : pub job.job_type post
        · exact jobsPreserved_handle_failure now _ job.id _ hproc
        · exact jobsPreserved_complete_job now _ job.id _ _ hproc
      · rw [if_pos rfl]
        exact jobsPreserved_complete_job now _ job.id _ _ hproc

/-- Witness for C5: ingest into a concrete store with duplicate-free job
ids preserves every record and its status. -/
theorem C5_witness :
    jobsPreserved storeActiveJob
      (ingest trivialHash 5 storeActiveJob "c" Platform.linkedin none).1 :=
  (C5_status_transitions trivialHash 5 storeActiveJob (by decide)).1 "c"
    Platform.linkedin none

/-- attempts of the stored record with a given id, used to state that a
job was attempted during a poll cycle. -/
def attemptsOf (s : Store) (jid : Nat) : Option Nat :=
  (findJob s jid).map JobRecord.attempts

theorem attemptsOf_updatePost (s : Store) (k : Nat) (f : Post → Post)
    (jid : Nat) : attemptsOf (updatePost s k f) jid = attemptsOf s jid := rfl

theorem attemptsOf_updateJob (s : Store) (k : Nat) (f : JobRecord → JobRecord)
    (jid : Nat) (hid : ∀ j, (f j).id = j.id)
    (ha : ∀ j, (f j).attempts = j.attempts) :
    attemptsOf (updateJob s k f) jid = attemptsOf s jid := by
  unfold attemptsOf
  rw [findJob_updateJob s k f jid hid]
  rcases h0 : findJob s jid with _ | j0
  · rfl
  · by_cases hk : j0.id = k
    · simp [hk, ha]
    · simp [hk]

theorem attemptsOf_mark_processing (now : Nat) (s : Store) (k : Nat) (jid : Nat) :
    attemptsOf (mark_processing now s k) jid
      = if jid = k then (attemptsOf s jid).map (fun a => a + 1)
        else attemptsOf s jid := by
  unfold attemptsOf mark_processing
  rw [findJob_updateJob]
  · rcases h0 : findJob s jid with _ | j0
    · by_cases hq : jid = k <;> simp [hq]
    · have hj0 : j0.id = jid := findJob_id s jid j0 h0
      by_cases hq : jid = k
      · subst hq
        simp [hj0]
      · have hk : ¬ (j0.id = k) := by
          rw [hj0]
          exact hq
        simp [hk, hq]
  · intro j
    rfl

theorem attemptsOf_complete_job (now : Nat) (u : Store) (k pid : Nat)
    (ext : String) (jid : Nat) :
    attemptsOf (complete_job now u k pid ext) jid = attemptsOf u jid := by
  unfold complete_job
  dsimp only
  rw [attemptsOf_updatePost, attemptsOf_updateJob]
  · intro j
    rfl
  · intro j
    rfl

theorem attemptsOf_handle_failure (now : Nat) (u : Store) (k : Nat)
    (e : String) (jid : Nat) :
    attemptsOf (handle_failure now u k e) jid = attemptsOf u jid := by
  unfold handle_failure
  cases hf : findJob u k
  · rfl
  · rename_i j0
    dsimp only
    by_cases hm : j0.max_attempts ≤ j0.attempts
    · rw [if_pos hm, attemptsOf_updatePost, attemptsOf_updateJob]
      · intro j
        rfl
      · intro j
        rfl
    · rw [if_neg hm, attemptsOf_updateJob]
      · intro j
        rfl
      · intro j
        rfl

theorem attemptsOf_process_job (dry : Bool)
    (pub : JobType → Post → Except String String) (now : Nat) (s : Store)
    (job : JobRecord) (jid : Nat) :
    attemptsOf (process_job dry pub now s job).1 jid
      = if jid = job.id then (attemptsOf s jid).map (fun a => a + 1)
        else attemptsOf s jid := by
  unfold process_job
  dsimp only
  cases hfp : findPost (mark_processing now s job.id) job.post_id
  · dsimp only
    rw [attemptsOf_handle_failure, attemptsOf_mark_processing]
  · rename_i post
    dsimp only
    cases dry
    · rw [if_neg (by simp)]
      cases hpub : pub job.job_type post
      · dsimp only
        rw [attemptsOf_handle_failure, attemptsOf_mark_processing]
      · dsimp only
        rw [attemptsOf_complete_job, attemptsOf_mark_processing]
    · rw [if_pos rfl]
      dsimp only
      rw [attemptsOf_complete_job, attemptsOf_mark_processing]

theorem attemptsOf_fold (dry : Bool)
    (pub : JobType → Post → Except String String) (now : Nat) :
    ∀ (l : List JobRecord) (s : Store) (n : Nat) (jid : Nat),
      attemptsOf ((l.foldl (processStep dry pub now) (s, n)).1) jid
        = (attemptsOf s jid).map
            (fun a => a + l.countP (fun x => x.id == jid)) := by
  intro l
  induction l with
  | nil =>
    intro s n jid
    rcases h0 : attemptsOf s jid with _ | a <;> simp [h0]
  | cons j l ih =>
    intro s n jid
    rw [List.foldl_cons]
    have hstep : processStep dry pub now (s, n) j
        = ((process_job dry pub now s j).1,
           n + (if (process_job dry pub now s j).2 then 1 else 0)) := rfl
    rw [hstep, ih, attemptsOf_process_job, List.countP_cons]
    by_cases hq : jid = j.id
    · rw [if_pos hq]
      have hb : (j.id == jid) = true := by
        simp [hq]
      simp only [hb]
      rcases h0 : attemptsOf s jid with _ | a
      · simp
      · simp
        omega
    · rw [if_neg hq]
      have hb : (j.id == jid) = false := by
        simp
        intro hcontra
        exact hq hcontra.symm
      simp only [hb]
      rcases h0 : attemptsOf s jid with _ | a <;> simp

/-- C6: every exception raised while processing one due job is caught at
the per-job boundary and routed into _handle_failure — this try/except of
job_worker.py lines 76-82 is embedded in process_job, making
process_queue a total function of the publisher's behaviour, so no
individual job's failure can propagate out of the cycle. Consequently,
for every publisher behaviour `pub` (including one that fails on every
call), every job of the due snapshot is still attempted: its attempts
counter is incremented in the final store. -/
theorem C6_per_job_isolation (dry : Bool)
    (pub : JobType → Post → Except String String) (now : Nat) (s : Store)
    (hids : (s.jobs.map JobRecord.id).Nodup) :
    ∀ j ∈ findDue now s, ∃ j2 ∈ (process_queue dry pub now s).1.jobs,
      j2.id = j.id ∧ j2.attempts = j.attempts + 1 := by
  intro j hj
  have hmf : j ∈ s.jobs ∧ isDue now j = true := by
    unfold findDue at hj
    rw [List.mem_insertionSort, List.mem_filter] at hj
    exact hj
  obtain ⟨hmem, hdue⟩ := hmf
  have hfind : findJob s j.id = some j := by
    rcases h0 : findJob s j.id with _ | j0
    · have hsome := findJob_isSome_of_mem s j hmem
      rw [h0] at hsome
      simp at hsome
    · have hj0 : j0.id = j.id := findJob_id s j.id j0 h0
      have heq : j0 = j :=
        job_id_inj s hids j0 (findJob_mem s j.id j0 h0) j hmem hj0
      subst heq
      rfl
  have hcount : (findDue now s).countP (fun x => x.id == j.id) = 1 := by
    have hperm := List.perm_insertionSort dueLeP (s.jobs.filter (isDue now))
    have h1 : s.jobs.countP (fun a => (a.id == j.id) && isDue now a)
        = s.jobs.countP (fun a => a.id == j.id) := by
      apply List.countP_congr
      intro x hx
      constructor
      · intro hb
        exact ((Bool.and_eq_true _ _).mp hb).1
      · intro hb
        have heq : x = j := job_id_inj s hids x hx j hmem (by simpa using hb)
        rw [Bool.and_eq_true]
        exact ⟨hb, heq ▸ hdue⟩
    have h2 : s.jobs.countP (fun a => a.id == j.id)
        = (s.jobs.map JobRecord.id).count j.id := by
      rw [List.count_eq_countP, List.countP_map]
      rfl
    have h3 : (s.jobs.map JobRecord.id).count j.id = 1 :=
      List.count_eq_one_of_mem hids (List.mem_map_of_mem _ hmem)
    unfold findDue
    rw [hperm.countP_eq, List.countP_filter, h1, h2, h3]
  have hfold := attemptsOf_fold dry pub now (findDue now s) s 0 j.id
  rw [hcount] at hfold
  have hA : attemptsOf s j.id = some j.attempts := by
    unfold attemptsOf
    rw [hfind]
    rfl
  rw [hA] at hfold
  have hq : attemptsOf (process_queue dry pub now s).1 j.id
      = some (j.attempts + 1) := by
    unfold process_queue
    simpa using hfold
  unfold attemptsOf at hq
  rcases hfin : findJob (process_queue dry pub now s).1 j.id with _ | j2
  · rw [hfin] at hq
    simp at hq
  · rw [hfin] at hq
    simp at hq
    exact ⟨j2, findJob_mem _ _ _ hfin, findJob_id _ _ _ hfin, hq⟩

/-- Publisher stub that fails on every call, for the C6 witness. -/
def failingPub : JobType → Post → Except String String :=
  fun _ _ => .error "network down"

/-- Witness for C6: with a publisher failing on every call, the due job of
a concrete two-job store is still attempted during the cycle. -/
theorem C6_witness :
    ∃ j2 ∈ (process_queue false failingPub 10 storeDueMix).1.jobs,
      j2.id = baseJob.id ∧ j2.attempts = baseJob.attempts + 1 :=
  C6_per_job_isolation false failingPub 10 storeDueMix (by decide) baseJob
    (by decide)

/-! Frame lemmas for the worker fold, tracking a single record or post
through the processing of unrelated jobs. -/

theorem findJob_updateJob_ne (s : Store) (k : Nat) (f : JobRecord → JobRecord)
    (jid : Nat) (hid : ∀ j, (f j).id = j.id) (hne : k ≠ jid) :
    findJob (updateJob s k f) jid = findJob s jid := by
  rw [findJob_updateJob s k f jid hid]
  rcases h0 : findJob s jid with _ | j0
  · rfl
  · have hj0 : j0.id = jid := findJob_id s jid j0 h0
    have hk : ¬ (j0.id = k) := by
      rw [hj0]
      exact fun hcc => hne hcc.symm
    simp [hk]

theorem findJob_mark_processing_ne (now : Nat) (s : Store) (k : Nat)
    (jid : Nat) (hne : k ≠ jid) :
    findJob (mark_processing now s k) jid = findJob s jid := by
  unfold mark_processing
  exact findJob_updateJob_ne s k _ jid (fun j => rfl) hne

theorem findJob_complete_job_ne (now : Nat) (u : Store) (k pid : Nat)
    (ext : String) (jid : Nat) (hne : k ≠ jid) :
    findJob (complete_job now u k pid ext) jid = findJob u jid := by
  unfold complete_job
  dsimp only
  rw [findJob_updatePost]
  exact findJob_updateJob_ne u k _ jid (fun j => rfl) hne

theorem findJob_handle_failure_ne (now : Nat) (u : Store) (k : Nat)
    (e : String) (jid : Nat) (hne : k ≠ jid) :
    findJob (handle_failure now u k e) jid = findJob u jid := by
  unfold handle_failure
  cases hf : findJob u k
  · rfl
  · rename_i j0
    dsimp only
    by_cases hm : j0.max_attempts ≤ j0.attempts
    · rw [if_pos hm, findJob_updatePost]
      exact findJob_updateJob_ne u k _ jid (fun j => rfl) hne
    · rw [if_neg hm]
      exact findJob_updateJob_ne u k _ jid (fun j => rfl) hne

theorem findJob_process_job_ne (dry : Bool)
    (pub : JobType → Post → Except String String) (now : Nat) (s : Store)
    (job : JobRecord) (jid : Nat) (hne : job.id ≠ jid) :
    findJob (process_job dry pub now s job).1 jid = findJob s jid := by
  unfold process_job
  dsimp only
  cases hfp : findPost (mark_processing now s job.id) job.post_id
  · dsimp only
    rw [findJob_handle_failure_ne _ _ _ _ _ hne,
      findJob_mark_processing_ne _ _ _ _ hne]
  · rename_i post
    dsimp only
    cases dry
    · rw [if_neg (by simp)]
      cases hpub : pub job.job_type post
      · dsimp only
        rw [findJob_handle_failure_ne _ _ _ _ _ hne,
          findJob_mark_processing_ne _ _ _ _ hne]
      · dsimp only
        rw [findJob_complete_job_ne _ _ _ _ _ _ hne,
          findJob_mark_processing_ne _ _ _ _ hne]
    · rw [if_pos rfl]
      dsimp only
      rw [findJob_complete_job_ne _ _ _ _ _ _ hne,
        findJob_mark_processing_ne _ _ _ _ hne]

theorem findJob_fold_ne (dry : Bool)
    (pub : JobType → Post → Except String String) (now : Nat) :
    ∀ (l : List JobRecord) (s : Store) (n : Nat) (jid : Nat),
      (∀ x ∈ l, x.id ≠ jid) →
      findJob ((l.foldl (processStep dry pub now) (s, n)).1) jid
        = findJob s jid := by
  intro l
  induction l with
  | nil =>
    intro s n jid hl
    rfl
  | cons x l ih =>
    intro s n jid hl
    rw [List.foldl_cons]
    have hstep : processStep dry pub now (s, n) x
        = ((process_job dry pub now s x).1,
           n + (if (process_job dry pub now s x).2 then 1 else 0)) := rfl
    rw [hstep, ih _ _ _ (fun y hy => hl y (List.mem_cons_of_mem x hy)),
      findJob_process_job_ne dry pub now s x jid (hl x (List.mem_cons_self x l))]

/-- post_id of the stored record with a given id; every worker mutation
preserves it. -/
def postIdOf (s : Store) (jid : Nat) : Option Nat :=
  (findJob s jid).map JobRecord.post_id

theorem postIdOf_updatePost (u : Store) (k : Nat) (f : Post → Post)
    (jid : Nat) : postIdOf (updatePost u k f) jid = postIdOf u jid := rfl

theorem postIdOf_updateJob (s : Store) (k : Nat) (f : JobRecord → JobRecord)
    (jid : Nat) (hid : ∀ j, (f j).id = j.id)
    (hp : ∀ j, (f j).post_id = j.post_id) :
    postIdOf (updateJob s k f) jid = postIdOf s jid := by
  unfold postIdOf
  rw [findJob_updateJob s k f jid hid]
  rcases h0 : findJob s jid with _ | j0
  · rfl
  · by_cases hk : j0.id = k
    · simp [hk, hp]
    · simp [hk]

theorem postIdOf_process_job (dry : Bool)
    (pub : JobType → Post → Except String String) (now : Nat) (s : Store)
    (job : JobRecord) (jid : Nat) :
    postIdOf (process_job dry pub now s job).1 jid = postIdOf s jid := by
  have hmark : ∀ (u : Store) (k : Nat),
      postIdOf (mark_processing now u k) jid = postIdOf u jid := by
    intro u k
    unfold mark_processing
    exact postIdOf_updateJob u k _ jid (fun j => rfl) (fun j => rfl)
  have hcomp : ∀ (u : Store) (k pid : Nat) (ext : String),
      postIdOf (complete_job now u k pid ext) jid = postIdOf u jid := by
    intro u k pid ext
    unfold complete_job
    dsimp only
    rw [postIdOf_updatePost]
    exact postIdOf_updateJob u k _ jid (fun j => rfl) (fun j => rfl)
  have hfail : ∀ (u : Store) (k : Nat) (e : String),
      postIdOf (handle_failure now u k e) jid = postIdOf u jid := by
    intro u k e
    unfold handle_failure
    cases hf : findJob u k
    · rfl
    · rename_i j0
      dsimp only
      by_cases hm : j0.max_attempts ≤ j0.attempts
      · rw [if_pos hm, postIdOf_updatePost]
        exact postIdOf_updateJob u k _ jid (fun j => rfl) (fun j => rfl)
      · rw [if_neg hm]
        exact postIdOf_updateJob u k _ jid (fun j => rfl) (fun j => rfl)
  unfold process_job
  dsimp only
  cases hfp : findPost (mark_processing now s job.id) job.post_id
  · dsimp only
    rw [hfail, hmark]
  · rename_i post
    dsimp only
    cases dry
    · rw [if_neg (by simp)]
      cases hpub : pub job.job_type post
      · dsimp only
        rw [hfail, hmark]
      · dsimp only
        rw [hcomp, hmark]
    · rw [if_pos rfl]
      dsimp only
      rw [hcomp, hmark]

theorem postIdOf_fold (dry : Bool)
    (pub : JobType → Post → Except String String) (now : Nat) :
    ∀ (l : List JobRecord) (s : Store) (n : Nat) (jid : Nat),
      postIdOf ((l.foldl (processStep dry pub now) (s, n)).1) jid
        = postIdOf s jid := by
  intro l
  induction l with
  | nil =>
    intro s n jid
    rfl
  | cons x l ih =>
    intro s n jid
    rw [List.foldl_cons]
    have hstep : processStep dry pub now (s, n) x
        = ((process_job dry pub now s x).1,
           n + (if (process_job dry pub now s x).2 then 1 else 0)) := rfl
    rw [hstep, ih, postIdOf_process_job]

theorem findPost_updatePost_ne (u : Store) (k : Nat) (f : Post → Post)
    (pid : Nat) (hne : k ≠ pid) (hid : ∀ p, (f p).id = p.id) :
    findPost (updatePost u k f) pid = findPost u pid := by
  rw [findPost_updatePost u k f pid hid]
  rcases h0 : findPost u pid with _ | p0
  · rfl
  · have hp0 : p0.id = pid := findPost_id u pid p0 h0
    have hk : ¬ (p0.id = k) := by
      rw [hp0]
      exact fun hcc => hne hcc.symm
    simp [hk]

theorem findPost_complete_job_ne (now : Nat) (u : Store) (k pid2 : Nat)
    (ext : String) (pid : Nat) (hne : pid2 ≠ pid) :
    findPost (complete_job now u k pid2 ext) pid = findPost u pid := by
  unfold complete_job
  dsimp only
  rw [findPost_updatePost_ne]
  · rw [findPost_updateJob]
  · exact hne
  · intro p
    rfl

theorem findPost_handle_failure_ne (now : Nat) (u : Store) (k : Nat)
    (e : String) (pid : Nat)
    (hk : ∀ j0, findJob u k = some j0 → j0.post_id ≠ pid) :
    findPost (handle_failure now u k e) pid = findPost u pid := by
  unfold handle_failure
  cases hf : findJob u k
  · rfl
  · rename_i j0
    dsimp only
    by_cases hm : j0.max_attempts ≤ j0.attempts
    · rw [if_pos hm, findPost_updatePost_ne]
      · rw [findPost_updateJob]
      · exact hk j0 hf
      · intro p
        rfl
    · rw [if_neg hm, findPost_updateJob]

theorem findPost_process_job_ne (dry : Bool)
    (pub : JobType → Post → Except String String) (now : Nat) (s : Store)
    (job : JobRecord) (pid : Nat)
    (hpost : ∀ j0, findJob s job.id = some j0 → j0.post_id = job.post_id)
    (hne : job.post_id ≠ pid) :
    findPost (process_job dry pub now s job).1 pid = findPost s pid := by
  have hmarkpost : findPost (mark_processing now s job.id) pid
      = findPost s pid := rfl
  have hmk : ∀ j0, findJob (mark_processing now s job.id) job.id = some j0 →
      j0.post_id ≠ pid := by
    intro j0 hj0
    have h1 : postIdOf (mark_processing now s job.id) job.id
        = postIdOf s job.id := by
      unfold mark_processing
      exact postIdOf_updateJob s job.id _ job.id (fun j => rfl) (fun j => rfl)
    have h2 : postIdOf (mark_processing now s job.id) job.id
        = some j0.post_id := by
      unfold postIdOf
      rw [hj0]
      rfl
    rw [h2] at h1
    unfold postIdOf at h1
    rcases hfj : findJob s job.id with _ | j00
    · rw [hfj] at h1
      simp at h1
    · rw [hfj] at h1
      simp at h1
      rw [h1, hpost j00 hfj]
      exact hne
  unfold process_job
  dsimp only
  cases hfp : findPost (mark_processing now s job.id) job.post_id
  · dsimp only
    rw [findPost_handle_failure_ne _ _ _ _ _ hmk, hmarkpost]
  · rename_i post
    dsimp only
    cases dry
    · rw [if_neg (by simp)]
      cases hpub : pub job.job_type post
      · dsimp only
        rw [findPost_handle_failure_ne _ _ _ _ _ hmk, hmarkpost]
      · dsimp only
        rw [findPost_complete_job_ne _ _ _ _ _ _ hne, hmarkpost]
    · rw [if_pos rfl]
      dsimp only
      rw [findPost_complete_job_ne _ _ _ _ _ _ hne, hmarkpost]

/-- With duplicate-free ids, the id lookup of a stored job returns it. -/
theorem findJob_self (s : Store) (hids : (s.jobs.map JobRecord.id).Nodup)
    (x : JobRecord) (hx : x ∈ s.jobs) : findJob s x.id = some x := by
  rcases h0 : findJob s x.id with _ | j0
  · have hsome := findJob_isSome_of_mem s x hx
    rw [h0] at hsome
    simp at hsome
  · have hj0 : j0.id = x.id := findJob_id s x.id j0 h0
    have heq : j0 = x :=
      job_id_inj s hids j0 (findJob_mem s x.id j0 h0) x hx hj0
    subst heq
    rfl

theorem findPost_fold_ne (dry : Bool)
    (pub : JobType → Post → Except String String) (now : Nat) :
    ∀ (l : List JobRecord) (s : Store) (n : Nat) (pid : Nat),
      (∀ x ∈ l, x.post_id ≠ pid) →
      (∀ x ∈ l, ∀ j0, findJob s x.id = some j0 → j0.post_id = x.post_id) →
      findPost ((l.foldl (processStep dry pub now) (s, n)).1) pid
        = findPost s pid := by
  intro l
  induction l with
  | nil =>
    intro s n pid h1 h2
    rfl
  | cons x l ih =>
    intro s n pid h1 h2
    rw [List.foldl_cons]
    have hstep : processStep dry pub now (s, n) x
        = ((process_job dry pub now s x).1,
           n + (if (process_job dry pub now s x).2 then 1 else 0)) := rfl
    rw [hstep]
    have h2x : ∀ y ∈ l, ∀ j0,
        findJob (process_job dry pub now s x).1 y.id = some j0 →
        j0.post_id = y.post_id := by
      intro y hy j0 hj0
      have hinv : postIdOf (process_job dry pub now s x).1 y.id
          = postIdOf s y.id := postIdOf_process_job dry pub now s x y.id
      have hsome : postIdOf (process_job dry pub now s x).1 y.id
          = some j0.post_id := by
        unfold postIdOf
        rw [hj0]
        rfl
      rw [hsome] at hinv
      unfold postIdOf at hinv
      rcases hfj : findJob s y.id with _ | j00
      · rw [hfj] at hinv
        simp at hinv
      · rw [hfj] at hinv
        simp at hinv
        rw [hinv]
        exact h2 y (List.mem_cons_of_mem x hy) j00 hfj
    rw [ih _ _ _ (fun y hy => h1 y (List.mem_cons_of_mem x hy)) h2x,
      findPost_process_job_ne dry pub now s x pid
        (h2 x (List.mem_cons_self x l)) (h1 x (List.mem_cons_self x l))]

theorem foldl_fn_congr {α β : Type} (f g : β → α → β)
    (h : ∀ acc x, f acc x = g acc x) :
    ∀ (l : List α) (init : β), l.foldl f init = l.foldl g init := by
  intro l
  induction l with
  | nil =>
    intro init
    rfl
  | cons x l ih =>
    intro init
    rw [List.foldl_cons, List.foldl_cons, h, ih]

/-- In dry-run mode the publisher is never consulted: the result of a
single job's processing is the same function of the store for any two
publishers. -/
theorem process_job_dry_pub (pub pub2 : JobType → Post → Except String String)
    (now : Nat) (s : Store) (job : JobRecord) :
    process_job true pub now s job = process_job true pub2 now s job := by
  unfold process_job
  dsimp only
  cases hfp : findPost (mark_processing now s job.id) job.post_id <;> rfl

/-- Effect of dry-run processing on the job's own record and post:
Completed with completed_at stamped, and Posted with posted_at and the
synthetic external id. -/
theorem process_job_dry_done (pub : JobType → Post → Except String String)
    (now : Nat) (u : Store) (j : JobRecord) (post : Post)
    (hfind : findJob u j.id = some j)
    (hpost : findPost u j.post_id = some post) :
    ((findJob (process_job true pub now u j).1 j.id).map JobRecord.status
        = some JobStatus.completed)
    ∧ ((findJob (process_job true pub now u j).1 j.id).map JobRecord.completed_at
        = some (some now))
    ∧ ((findPost (process_job true pub now u j).1 j.post_id).map Post.status
        = some PostStatus.posted)
    ∧ ((findPost (process_job true pub now u j).1 j.post_id).map Post.posted_at
        = some (some now))
    ∧ ((findPost (process_job true pub now u j).1 j.post_id).map Post.external_id
        = some (some ("dry-run-" ++ toString j.id))) := by
  have hpid : post.id = j.post_id := findPost_id u j.post_id post hpost
  have hpost2 : findPost (mark_processing now u j.id) j.post_id = some post :=
    hpost
  unfold process_job
  dsimp only
  rw [hpost2]
  dsimp only
  rw [if_pos rfl]
  dsimp only
  have hjobside : findJob
      (complete_job now (mark_processing now u j.id) j.id j.post_id
        ("dry-run-" ++ toString j.id)) j.id
      = ((findJob u j.id).map (fun x =>
          if x.id == j.id then
            { x with status := .processing, started_at := some now,
                     attempts := x.attempts + 1 }
          else x)).map (fun x =>
          if x.id == j.id then
            { x with status := .completed, completed_at := some now,
                     last_error := none }
          else x) := by
    unfold complete_job
    dsimp only
    rw [findJob_updatePost, findJob_updateJob]
    · unfold mark_processing
      rw [findJob_updateJob]
      intro x
      rfl
    · intro x
      rfl
  have hpostside : findPost
      (complete_job now (mark_processing now u j.id) j.id j.post_id
        ("dry-run-" ++ toString j.id)) j.post_id
      = (findPost u j.post_id).map (fun p =>
          if p.id == j.post_id then
            { p with status := .posted, posted_at := some now,
                     external_id := some ("dry-run-" ++ toString j.id) }
          else p) := by
    unfold complete_job
    dsimp only
    rw [findPost_updatePost]
    · rw [findPost_updateJob]
      rfl
    · intro p
      rfl
  refine ⟨?_, ?_, ?_, ?_, ?_⟩
  · rw [hjobside, hfind]
    simp
  · rw [hjobside, hfind]
    simp
  · rw [hpostside, hpost]
    simp [hpid]
  · rw [hpostside, hpost]
    simp [hpid]
  · rw [hpostside, hpost]
    simp [hpid]

/-- Splitting a duplicate-free projected list around a distinguished
element: every other element differs on the projection. -/
theorem nodup_split_ne {β : Type} (f : JobRecord → β) (l1 l2 : List JobRecord)
    (j : JobRecord) (h : ((l1 ++ j :: l2).map f).Nodup) :
    (∀ x ∈ l1, f x ≠ f j) ∧ (∀ x ∈ l2, f x ≠ f j) := by
  rw [List.map_append, List.map_cons, List.nodup_append] at h
  obtain ⟨h1, h2, hdisj⟩ := h
  rw [List.nodup_cons] at h2
  constructor
  · intro x hx heq
    exact hdisj (List.mem_map_of_mem f hx)
      (by rw [heq]; exact List.mem_cons_self _ _)
  · intro x hx heq
    exact h2.1 (by rw [← heq]; exact List.mem_map_of_mem f hx)

/-- Through any worker fold, the looked-up record of a stored job keeps
its post_id. -/
theorem fold_post_consistency (dry : Bool)
    (pub : JobType → Post → Except String String) (now : Nat)
    (l : List JobRecord) (s : Store) (n : Nat)
    (hids : (s.jobs.map JobRecord.id).Nodup) :
    ∀ x, x ∈ s.jobs → ∀ j0,
      findJob ((l.foldl (processStep dry pub now) (s, n)).1) x.id = some j0 →
      j0.post_id = x.post_id := by
  intro x hx j0 hj0
  have hinv := postIdOf_fold dry pub now l s n x.id
  have hsome : postIdOf ((l.foldl (processStep dry pub now) (s, n)).1) x.id
      = some j0.post_id := by
    unfold postIdOf
    rw [hj0]
    rfl
  rw [hsome] at hinv
  unfold postIdOf at hinv
  rw [findJob_self s hids x hx] at hinv
  simp at hinv
  exact hinv

/-- C10: with dry_run = True, process_queue never invokes any platform
publish call — the whole cycle computes the same result for any two
publishers — yet each due job (with its post present) is still marked
Completed with completed_at stamped, and its Post becomes Posted with
posted_at set and external_id = "dry-run-{job.id}": dry-run commits
exactly the persistent state changes of a successful real publish
(job_worker.py lines 40-46 and 104-130). Stated for stores with
duplicate-free job ids whose due snapshot has duplicate-free post ids —
both hold under the at-most-one-active-job invariant. -/
theorem C10_dry_run (pub pub2 : JobType → Post → Except String String)
    (now : Nat) (s : Store)
    (hids : (s.jobs.map JobRecord.id).Nodup)
    (hpids : ((findDue now s).map JobRecord.post_id).Nodup) :
    process_queue true pub now s = process_queue true pub2 now s
    ∧ ∀ j ∈ findDue now s, ∀ post, findPost s j.post_id = some post →
        (∃ j2 ∈ (process_queue true pub now s).1.jobs,
          j2.id = j.id ∧ j2.status = JobStatus.completed
            ∧ j2.completed_at = some now)
        ∧ (∃ p2, findPost (process_queue true pub now s).1 j.post_id = some p2
            ∧ p2.status = PostStatus.posted ∧ p2.posted_at = some now
            ∧ p2.external_id = some ("dry-run-" ++ toString j.id)) := by
  constructor
  · unfold process_queue
    apply foldl_fn_congr
    intro acc x
    unfold processStep
    rw [process_job_dry_pub pub pub2 now acc.1 x]
  · intro j hj post hpost
    have hmemS : j ∈ s.jobs := by
      have hj2 := hj
      unfold findDue at hj2
      rw [List.mem_insertionSort, List.mem_filter] at hj2
      exact hj2.1
    have hperm := List.perm_insertionSort dueLeP (s.jobs.filter (isDue now))
    have hdueIds : ((findDue now s).map JobRecord.id).Nodup := by
      have hsub : ((s.jobs.filter (isDue now)).map JobRecord.id).Nodup :=
        List.Nodup.sublist ((List.filter_sublist s.jobs).map JobRecord.id) hids
      exact ((hperm.map JobRecord.id).nodup_iff).mpr hsub
    obtain ⟨l1, l2, hsplit⟩ := List.append_of_mem hj
    have hids2 := hdueIds
    rw [hsplit] at hids2
    obtain ⟨hjl1, hjl2⟩ := nodup_split_ne JobRecord.id l1 l2 j hids2
    have hpids2 := hpids
    rw [hsplit] at hpids2
    obtain ⟨hpl1, hpl2⟩ := nodup_split_ne JobRecord.post_id l1 l2 j hpids2
    have hmem1 : ∀ x ∈ l1, x ∈ s.jobs := by
      intro x hx
      have hxdue : x ∈ findDue now s := by
        rw [hsplit]
        exact List.mem_append_left _ hx
      unfold findDue at hxdue
      rw [List.mem_insertionSort, List.mem_filter] at hxdue
      exact hxdue.1
    have hmem2 : ∀ x ∈ l2, x ∈ s.jobs := by
      intro x hx
      have hxdue : x ∈ findDue now s := by
        rw [hsplit]
        exact List.mem_append_right _ (List.mem_cons_of_mem j hx)
      unfold findDue at hxdue
      rw [List.mem_insertionSort, List.mem_filter] at hxdue
      exact hxdue.1
    have hAjob : findJob
        ((l1.foldl (processStep true pub now) (s, 0)).1) j.id = some j := by
      rw [findJob_fold_ne true pub now l1 s 0 j.id hjl1]
      exact findJob_self s hids j hmemS
    have hApost : findPost
        ((l1.foldl (processStep true pub now) (s, 0)).1) j.post_id
        = some post := by
      rw [findPost_fold_ne true pub now l1 s 0 j.post_id hpl1
        (fun x hx j0 hj0 => by
          have hself := findJob_self s hids x (hmem1 x hx)
          rw [hself] at hj0
          cases hj0
          rfl)]
      exact hpost
    have hdone := process_job_dry_done pub now
      ((l1.foldl (processStep true pub now) (s, 0)).1) j post hAjob hApost
    have hq : process_queue true pub now s
        = l2.foldl (processStep true pub now)
            (processStep true pub now
              (l1.foldl (processStep true pub now) (s, 0)) j) := by
      unfold process_queue
      rw [hsplit, List.foldl_append, List.foldl_cons]
    have hstepB : processStep true pub now
          (l1.foldl (processStep true pub now) (s, 0)) j
        = ((l1 ++ [j]).foldl (processStep true pub now) (s, 0)) := by
      rw [List.foldl_append]
      rfl
    have hFjob : findJob (process_queue true pub now s).1 j.id
        = findJob (process_job true pub now
            ((l1.foldl (processStep true pub now) (s, 0)).1) j).1 j.id := by
      rw [hq, findJob_fold_ne true pub now l2 _ _ j.id hjl2]
      rfl
    have hFpost : findPost (process_queue true pub now s).1 j.post_id
        = findPost (process_job true pub now
            ((l1.foldl (processStep true pub now) (s, 0)).1) j).1 j.post_id := by
      rw [hq, findPost_fold_ne true pub now l2 _ _ j.post_id hpl2
        (fun x hx j0 hj0 => by
          have hj0B : findJob
              ((l1 ++ [j]).foldl (processStep true pub now) (s, 0)).1 x.id
              = some j0 := by
            rw [← hstepB]
            exact hj0
          exact fold_post_consistency true pub now (l1 ++ [j]) s 0 hids x
            (hmem2 x hx) j0 hj0B)]
      rfl
    constructor
    · rcases hF : findJob (process_queue true pub now s).1 j.id with _ | j2
      · rw [hF] at hFjob
        have h1 := hdone.1
        rw [← hFjob] at h1
        simp at h1
      · have hFpj : findJob (process_job true pub now
            ((l1.foldl (processStep true pub now) (s, 0)).1) j).1 j.id
            = some j2 := by
          rw [← hFjob]
          exact hF
        have h1 := hdone.1
        have h2 := hdone.2.1
        rw [hFpj] at h1 h2
        simp at h1 h2
        exact ⟨j2, findJob_mem _ _ _ hF, findJob_id _ _ _ hF, h1, h2⟩
    · rcases hP : findPost (process_queue true pub now s).1 j.post_id
        with _ | p2
      · rw [hP] at hFpost
        have h3 := hdone.2.2.1
        rw [← hFpost] at h3
        simp at h3
      · have hPpj : findPost (process_job true pub now
            ((l1.foldl (processStep true pub now) (s, 0)).1) j).1 j.post_id
            = some p2 := by
          rw [← hFpost]
          exact hP
        have h3 := hdone.2.2.1
        have h4 := hdone.2.2.2.1
        have h5 := hdone.2.2.2.2
        rw [hPpj] at h3 h4 h5
        simp at h3 h4 h5
        exact ⟨p2, rfl, h3, h4, h5⟩

/-- Witness for C10: the dry-run cycle on a concrete store completes the
due job with the dry-run external id stamped on its post. -/
theorem C10_witness :
    ∃ j2 ∈ (process_queue true failingPub 10 storeDueMix).1.jobs,
      j2.id = baseJob.id ∧ j2.status = JobStatus.completed
        ∧ j2.completed_at = some 10 :=
  ((C10_dry_run failingPub failingPub 10 storeDueMix (by decide) (by decide)).2
    baseJob (by decide) approvedPost rfl).1

end ContentEngine
